import Mathlib

/-!
Shallow embedding of the chetter-app PR reference lifecycle engine
(src/lib.rs, src/github.rs) and proofs about its specification.

Backend calls are modelled by a record of pure functions
(`RepositoryController`); each lifecycle operation returns the trace of
calls it issued (`List Op`) together with its aggregate result.
-/

/-- Error type mirroring `ChetterError` in src/error.rs.  Payloads of
foreign error types are abstracted to an opaque `Nat` index. -/
inductive ChetterError where
  | githubParseError : String → ChetterError
  | ioError : Nat → ChetterError
  | jsonWebTokenError : Nat → ChetterError
  | octocrab : Nat → ChetterError
  | tomlParseError : Nat → ChetterError
  | joinError : Nat → ChetterError
  | githubGraphqlError : List String → ChetterError
deriving DecidableEq

/-- Git reference, mirroring `Ref` in src/github.rs. -/
structure Ref where
  full_name : String
  sha : String
  node_id : String
deriving DecidableEq

/-- One call made against the `RepositoryController` trait object. -/
inductive Op where
  | createRef : String → String → Op
  | updateRef : String → String → Op
  | deleteRefs : List Ref → Op
  | matchingRefs : String → Op
deriving DecidableEq

/-- A pure model of the `RepositoryController` trait of src/github.rs:
the response the backend gives to each possible call. -/
structure RepositoryController where
  create_ref : String → String → Except ChetterError Unit
  update_ref : String → String → Except ChetterError Unit
  delete_refs : List Ref → Except ChetterError Unit
  matching_refs : String → Except ChetterError (List Ref)

/-- Rust `str::ends_with` on our strings. -/
def strEndsWith (s suffixStr : String) : Bool :=
  suffixStr.data.isSuffixOf s.data

/-- Rust `str::starts_with` (used to model the remote matching-refs
endpoint). -/
def strStartsWith (s pre : String) : Bool :=
  pre.data.isPrefixOf s.data

/-- The error list contributed by one fallible call: Rust
`if let Err(e) = ... { errors.push(e) }`. -/
def errsOf (r : Except ChetterError Unit) : List ChetterError :=
  match r with
  | .ok _ => []
  | .error e => [e]

/-- Rust `match errors.pop() { None => Ok(()), Some(e) => Err(e) }`:
the last collected error wins. -/
def popResult (errors : List ChetterError) : Except ChetterError Unit :=
  match errors.getLast? with
  | none => .ok ()
  | some e => .error e

/-- Embedding of `open_pr` (src/lib.rs).  The Rust loop
`for ref_name in ["head", "v1"] { for (suffix, target) in [("", sha), ("-base", base)] { ... } }`
is unrolled; each iteration calls `create_ref` on
`format!("{}/{}{}", pr, ref_name, suffix)` and pushes any error. -/
def open_pr (client : RepositoryController) (pr : Nat) (sha base : String) :
    List Op × Except ChetterError Unit :=
  let n1 := toString pr ++ "/head"
  let n2 := toString pr ++ "/head-base"
  let n3 := toString pr ++ "/v1"
  let n4 := toString pr ++ "/v1-base"
  ([Op.createRef n1 sha, Op.createRef n2 base, Op.createRef n3 sha, Op.createRef n4 base],
   popResult (errsOf (client.create_ref n1 sha) ++ errsOf (client.create_ref n2 base) ++
     errsOf (client.create_ref n3 sha) ++ errsOf (client.create_ref n4 base)))

/-- Digit-string value: all characters must be decimal digits and at
least one must be present, mirroring the digit loop of Rust
`u32::from_str`. -/
def digitsVal (cs : List Char) : Option Nat :=
  if cs.isEmpty then none
  else cs.foldl
    (fun acc c =>
      match acc with
      | none => none
      | some v => if c.isDigit then some (v * 10 + (c.toNat - 48)) else none)
    (some 0)

/-- Embedding of Rust `str::parse::<u32>()`: an optional leading `+`,
then one or more decimal digits, and the value must fit in 32 bits. -/
def parseU32 (s : List Char) : Option Nat :=
  let digits :=
    match s with
    | '+' :: rest => rest
    | cs => cs
  match digitsVal digits with
  | some v => if v < 4294967296 then some v else none
  | none => none

/-- Embedding of Rust `full_name.split('v').next_back()`: the segment
after the last `'v'`, which is the whole string when no `'v'` occurs. -/
def split_last_v (s : String) : List Char :=
  (s.data.reverse.takeWhile (fun c => c ≠ 'v')).reverse

/-- The candidate version number the loops of `synchronize_pr` /
`bookmark_pr` extract from one ref:
`t.full_name.split('v').next_back()?.parse::<u32>().ok()`. -/
def refVersion (r : Ref) : Option Nat :=
  parseU32 (split_last_v r.full_name)

/-- The next version number as computed inline by `synchronize_pr` and
`bookmark_pr` (src/lib.rs): 1 for an empty ref set, otherwise one plus
the maximum parsed version (`max().unwrap_or(0)`). -/
def next_version (refs : List Ref) : Nat :=
  if refs.isEmpty then 1
  else (refs.filterMap refVersion).foldl max 0 + 1

/-- The version resolver as the spec words it (for claim C1): the
candidate text is the text following the last literal `v` of the full
name, so a ref whose name contains no `v` at all is ignored. -/
def resolver_spec (refs : List Ref) : Nat :=
  (refs.filterMap
    (fun r =>
      if 'v' ∈ r.full_name.data then parseU32 (split_last_v r.full_name) else none)).foldl
    max 0 + 1

/-- Spec-side description of the candidate text (amended claim C1): the
text after the last occurrence of `a`, or the whole list when `a` does
not occur. -/
def afterLast (a : Char) : List Char → List Char
  | [] => []
  | c :: cs =>
    if a ∈ cs then afterLast a cs
    else if c = a then cs
    else c :: cs

/-- One update-or-create step of `synchronize_pr` / `bookmark_pr`: when
`existing` holds the code force-updates the ref, otherwise it creates
it; the issued call and its backend result are returned. -/
def upsertCall (client : RepositoryController) (existing : Bool) (name target : String) :
    Op × Except ChetterError Unit :=
  if existing then (Op.updateRef name target, client.update_ref name target)
  else (Op.createRef name target, client.create_ref name target)

/-- Embedding of `synchronize_pr` (src/lib.rs).  Fetches
`matching_refs("{pr}/")` (propagating its error with `?`), then for
`head` / `head-base` updates the ref if some fetched full name
`ends_with` the pointer name `"{pr}/head[-base]"` and creates it
otherwise, then always creates `"{pr}/v{next}"` and
`"{pr}/v{next}-base"`; errors are collected and the last one wins. -/
def synchronize_pr (client : RepositoryController) (pr : Nat) (sha base : String) :
    List Op × Except ChetterError Unit :=
  match client.matching_refs (toString pr ++ "/") with
  | .error e => ([Op.matchingRefs (toString pr ++ "/")], .error e)
  | .ok refs =>
    let n1 := toString pr ++ "/head"
    let n2 := toString pr ++ "/head-base"
    let c1 := upsertCall client (refs.any fun t => strEndsWith t.full_name n1) n1 sha
    let c2 := upsertCall client (refs.any fun t => strEndsWith t.full_name n2) n2 base
    let n3 := toString pr ++ "/v" ++ toString (next_version refs)
    let n4 := toString pr ++ "/v" ++ toString (next_version refs) ++ "-base"
    ([Op.matchingRefs (toString pr ++ "/"), c1.1, c2.1, Op.createRef n3 sha, Op.createRef n4 base],
     popResult (errsOf c1.2 ++ errsOf c2.2 ++
       errsOf (client.create_ref n3 sha) ++ errsOf (client.create_ref n4 base)))

/-- Embedding of `bookmark_pr` (src/lib.rs).  Fetches
`matching_refs("{pr}/{reviewer}")`, then for the two pointer names
`"{pr}/{reviewer}-head[-base]"` the source decides update-vs-create by
`refs.iter().any(|t| t.full_name.ends_with(&suffix))` with the BARE
suffix `"head"` / `"head-base"`, then always creates the
`"{pr}/{reviewer}-v{next}[-base]"` pair. -/
def bookmark_pr (client : RepositoryController) (pr : Nat) (reviewer sha base : String) :
    List Op × Except ChetterError Unit :=
  match client.matching_refs (toString pr ++ "/" ++ reviewer) with
  | .error e => ([Op.matchingRefs (toString pr ++ "/" ++ reviewer)], .error e)
  | .ok refs =>
    let n1 := toString pr ++ "/" ++ reviewer ++ "-head"
    let n2 := toString pr ++ "/" ++ reviewer ++ "-head-base"
    let c1 := upsertCall client (refs.any fun t => strEndsWith t.full_name "head") n1 sha
    let c2 := upsertCall client (refs.any fun t => strEndsWith t.full_name "head-base") n2 base
    let n3 := toString pr ++ "/" ++ reviewer ++ "-v" ++ toString (next_version refs)
    let n4 := toString pr ++ "/" ++ reviewer ++ "-v" ++ toString (next_version refs) ++ "-base"
    ([Op.matchingRefs (toString pr ++ "/" ++ reviewer), c1.1, c2.1,
      Op.createRef n3 sha, Op.createRef n4 base],
     popResult (errsOf c1.2 ++ errsOf c2.2 ++
       errsOf (client.create_ref n3 sha) ++ errsOf (client.create_ref n4 base)))

/-- Embedding of `close_pr` (src/lib.rs): fetch `matching_refs("{pr}/")`
and bulk-delete the result, propagating either error with `?`. -/
def close_pr (client : RepositoryController) (pr : Nat) :
    List Op × Except ChetterError Unit :=
  match client.matching_refs (toString pr ++ "/") with
  | .error e => ([Op.matchingRefs (toString pr ++ "/")], .error e)
  | .ok refs =>
    match client.delete_refs refs with
    | .error e => ([Op.matchingRefs (toString pr ++ "/"), Op.deleteRefs refs], .error e)
    | .ok _ => ([Op.matchingRefs (toString pr ++ "/"), Op.deleteRefs refs], .ok ())

/-- Review states of octocrab `pulls::ReviewState`. -/
inductive ReviewState where
  | approved
  | changesRequested
  | commented
  | dismissed
  | pending
deriving DecidableEq

/-- The fields of `PullRequestReviewWebhookEventPayload` that
`on_pull_request_review` reads. -/
structure PullRequestReviewPayload where
  review_commit_id : Option String
  review_state : Option ReviewState
  pr_number : Nat
  pr_base_sha : String

/-- Embedding of `on_pull_request_review` (src/lib.rs): a missing
`.review.commit_id` is a parse error; a review whose state is Approved
or ChangesRequested triggers `bookmark_pr`; any other state is a
no-op success. -/
def on_pull_request_review (client : RepositoryController) (reviewer : String)
    (payload : PullRequestReviewPayload) : List Op × Except ChetterError Unit :=
  match payload.review_commit_id with
  | none => ([], .error (.githubParseError "missing .review.commit_id"))
  | some sha =>
    match payload.review_state with
    | some .approved | some .changesRequested =>
      bookmark_pr client payload.pr_number reviewer sha payload.pr_base_sha
    | _ => ([], .ok ())

/-- The review states that trigger a bookmark:
`Some(ReviewState::Approved | ReviewState::ChangesRequested)`. -/
def triggersBookmark : Option ReviewState → Bool
  | some .approved => true
  | some .changesRequested => true
  | _ => false

/-- Pull-request webhook actions: the four that `on_pull_request`
distinguishes, with `other` standing for every ignored variant. -/
inductive PullRequestAction where
  | opened
  | reopened
  | synchronize
  | closed
  | other
deriving DecidableEq

/-- The fields of `PullRequestWebhookEventPayload` that
`on_pull_request` reads. -/
structure PullRequestPayload where
  action : PullRequestAction
  number : Nat
  head_sha : String
  base_sha : String

/-- Embedding of `on_pull_request` (src/lib.rs).  The first component
is the synchronously executed work (trace and webhook result); the
second lists the tasks spawned onto the background `TaskTracker`, each
given by its eventual trace and result.  For `Closed` the close work is
only scheduled and `Ok(())` is returned at once. -/
def on_pull_request (client : RepositoryController) (payload : PullRequestPayload) :
    (List Op × Except ChetterError Unit) × List (List Op × Except ChetterError Unit) :=
  match payload.action with
  | .synchronize => (synchronize_pr client payload.number payload.head_sha payload.base_sha, [])
  | .opened => (open_pr client payload.number payload.head_sha payload.base_sha, [])
  | .reopened => (open_pr client payload.number payload.head_sha payload.base_sha, [])
  | .closed => (([], .ok ()), [close_pr client payload.number])
  | .other => (([], .ok ()), [])

/-- Rust `refs.chunks(100)`: consecutive chunks of at most 100 refs. -/
def chunks100 (l : List Ref) : List (List Ref) :=
  if l.isEmpty then []
  else l.take 100 :: chunks100 (l.drop 100)
termination_by l.length
decreasing_by
  rename_i h
  have hne : l ≠ [] := fun hl => h (by simp [hl])
  have hpos : 0 < l.length := List.length_pos.mpr hne
  simp only [List.length_drop]
  omega

/-- UTF-8 byte length of a char list, matching Rust `str::len`. -/
def utf8Len (cs : List Char) : Nat :=
  (cs.map Char.utf8Size).sum

/-- Rust byte slice `&s[0..n]` on the UTF-8 encoding: `some` prefix
when byte offset `n` is a character boundary of the string, `none` when
the slice panics (out of range or not on a boundary). -/
def sliceTo : List Char → Nat → Option (List Char)
  | _, 0 => some []
  | [], _ + 1 => none
  | c :: rest, n + 1 =>
    if c.utf8Size ≤ n + 1 then (sliceTo rest (n + 1 - c.utf8Size)).map (c :: ·)
    else none

/-- Namespace under which all references are created (src/github.rs). -/
def REF_NS : String := "refs/heads/pr"

/-- Rust `&REF_NS[5..]`, stripping `refs/`. -/
def short_ns : String := ⟨REF_NS.data.drop 5⟩

/-- The object a remote reference points at
(`octocrab::models::repos::Object`): `other` stands for the unmatched
variants that `matching_refs` skips. -/
inductive RemoteObject where
  | commit : String → RemoteObject
  | tag : String → RemoteObject
  | other : RemoteObject

/-- A reference as the remote API reports it: fully qualified
`ref_field` (e.g. `refs/heads/pr/...`), target object, node id. -/
structure RemoteRef where
  ref_field : String
  object : RemoteObject
  node_id : String

/-- Worker for `removeAll`, structurally recursive on a fuel that
bounds the number of scan steps; every step either emits one character
or skips a whole nonempty match, so `fuel = s.length` always
suffices. -/
def removeAllAux (pat : List Char) : Nat → List Char → List Char
  | 0, s => s
  | _ + 1, [] => []
  | fuel + 1, c :: rest =>
    if pat ≠ [] ∧ pat.isPrefixOf (c :: rest) then
      removeAllAux pat fuel ((c :: rest).drop pat.length)
    else c :: removeAllAux pat fuel rest

/-- Rust `str::replace(pat, "")`: remove every non-overlapping
occurrence of `pat`, scanning left to right. -/
def removeAll (pat s : List Char) : List Char :=
  removeAllAux pat s.length s

namespace RepositoryClient

/-- Modelled from the spec: the remote matching-refs endpoint consumed
by `RepositoryClient::matching_refs` is external to this repository;
per the doc-comment examples on `RepositoryController::matching_refs`
and the documented endpoint behaviour it returns every reference of
the repository whose fully qualified name starts with the requested
path `refs/<short_ns>/<search>`.  The post-processing done by the repository
(skipping non-commit, non-tag objects and stripping `REF_NS/` from the
name with `str::replace`) is translated from src/github.rs. -/
def matching_refs (univ : List RemoteRef) (search : String) : List Ref :=
  (univ.filter
      (fun r => strStartsWith r.ref_field ("refs/" ++ short_ns ++ "/" ++ search))).filterMap
    (fun r =>
      match r.object with
      | .commit sha => some ⟨⟨removeAll (REF_NS ++ "/").data r.ref_field.data⟩, sha, r.node_id⟩
      | .tag sha => some ⟨⟨removeAll (REF_NS ++ "/").data r.ref_field.data⟩, sha, r.node_id⟩
      | .other => none)

/-- Embedding of `RepositoryClient::delete_refs` (src/github.rs): the
input is split with `refs.chunks(100)`, one GraphQL bulk-delete request
is issued per chunk (`respond` models the remote outcome of one
request, covering transport errors and GraphQL error payloads alike),
every chunk is attempted, and collected errors are popped at the end.
The first component is the sequence of per-chunk requests issued. -/
def delete_refs (respond : List Ref → Except ChetterError Unit) (refs : List Ref) :
    List (List Ref) × Except ChetterError Unit :=
  let step := (chunks100 refs).foldl
    (fun acc chunk => (acc.1 ++ [chunk], acc.2 ++ errsOf (respond chunk))) ([], [])
  (step.1, popResult step.2)

/-- Embedding of `RepositoryClient::create_ref` (src/github.rs): the
HTTP outcome is `post`; on success the code logs `&sha[0..8]` via
`info!` and on failure via `error!`, so both paths evaluate the byte
slice; `none` models the panic of an invalid slice. -/
def create_ref (post : Except ChetterError Unit) (ref_name sha : String) :
    Option (Except ChetterError Unit) :=
  match post with
  | .ok _ =>
    match sliceTo sha.data 8 with
    | some _ => some (.ok ())
    | none => none
  | .error e =>
    match sliceTo sha.data 8 with
    | some _ => some (.error e)
    | none => none

/-- Embedding of `RepositoryClient::update_ref` (src/github.rs): same
shape as `create_ref`, logging `&sha[0..8]` on both paths. -/
def update_ref (post : Except ChetterError Unit) (ref_name sha : String) :
    Option (Except ChetterError Unit) :=
  match post with
  | .ok _ =>
    match sliceTo sha.data 8 with
    | some _ => some (.ok ())
    | none => none
  | .error e =>
    match sliceTo sha.data 8 with
    | some _ => some (.error e)
    | none => none

end RepositoryClient

/-- Test double whose calls all succeed and whose listing returns an
existing current-pointer ref plus a `v4` snapshot for PR 1234. -/
def syncClient : RepositoryController where
  create_ref := fun _ _ => .ok ()
  update_ref := fun _ _ => .ok ()
  delete_refs := fun _ => .ok ()
  matching_refs := fun _ => .ok [⟨"1234/head", "s", "n"⟩, ⟨"1234/v4", "s", "n"⟩]

/-- Test double for the bookmark counterexample: the reviewer-scoped
listing returns only a stale versioned ref `1/me-v9-head` and no
current pointer `1/me-head`. -/
def bmClient : RepositoryController where
  create_ref := fun _ _ => .ok ()
  update_ref := fun _ _ => .ok ()
  delete_refs := fun _ => .ok ()
  matching_refs := fun _ => .ok [⟨"1/me-v9-head", "s", "n"⟩]

/-- Test double whose calls all succeed and whose listing is empty. -/
def nullClient : RepositoryController where
  create_ref := fun _ _ => .ok ()
  update_ref := fun _ _ => .ok ()
  delete_refs := fun _ => .ok ()
  matching_refs := fun _ => .ok []

/-- Test double whose listing always fails. -/
def failClient : RepositoryController where
  create_ref := fun _ _ => .ok ()
  update_ref := fun _ _ => .ok ()
  delete_refs := fun _ => .ok ()
  matching_refs := fun _ => .error (.octocrab 0)

theorem afterLast_append_self (a : Char) (xs : List Char) :
    afterLast a (xs ++ [a]) = [] := by
  induction xs with
  | nil => simp [afterLast]
  | cons x xs ih =>
    have hmem : a ∈ xs ++ [a] := by simp
    simp [afterLast, hmem, ih]

theorem afterLast_append_ne (a c : Char) (hc : c ≠ a) (xs : List Char) :
    afterLast a (xs ++ [c]) = afterLast a xs ++ [c] := by
  induction xs with
  | nil => simp [afterLast, hc]
  | cons x xs ih =>
    by_cases hmem : a ∈ xs
    · have h1 : a ∈ xs ++ [c] := by simp [hmem]
      simp [afterLast, h1, hmem, ih]
    · have h1 : a ∉ xs ++ [c] := by
        simp [hmem]
        exact fun h => absurd h.symm hc
      by_cases hx : x = a
      · simp [afterLast, h1, hmem, hx]
      · simp [afterLast, h1, hmem, hx]

/-- The last-split-segment of the code equals the spec-side `afterLast`. -/
theorem split_last_v_eq_afterLast (s : String) :
    split_last_v s = afterLast 'v' s.data := by
  rw [split_last_v]
  induction s.data using List.reverseRecOn with
  | nil => rfl
  | append_singleton cs c ih =>
    by_cases hc : c = 'v'
    · subst hc
      simp [afterLast_append_self]
    · rw [afterLast_append_ne 'v' c hc]
      simp only [List.reverse_append, List.reverse_cons, List.reverse_nil, List.nil_append,
        List.singleton_append, List.takeWhile_cons]
      simp only [ne_eq, decide_not] at ih
      simp [hc, ih]

/-- Claim C1 (amended): the next version is one plus the maximum, over
all refs in the collection, of the value parsed as an unsigned 32-bit
integer from the text after the last `v` of the full name of the ref — the
whole name when it contains no `v` — with unparsable refs ignored and
the maximum defaulting to 0 (so an empty collection yields 1); and the
suffixes `v1`, `v4`, `v4-base`, `reviewer-v2` yield next version 5. -/
theorem version_resolver_amended (refs : List Ref) :
    next_version refs =
      (refs.filterMap (fun r => parseU32 (afterLast 'v' r.full_name.data))).foldl max 0 + 1 ∧
    next_version
      [⟨"10/v1", "a", "b"⟩, ⟨"10/v4", "a", "b"⟩, ⟨"10/v4-base", "a", "b"⟩,
       ⟨"10/reviewer-v2", "a", "b"⟩] = 5 := by
  constructor
  · have hfm : refs.filterMap refVersion =
        refs.filterMap (fun r => parseU32 (afterLast 'v' r.full_name.data)) := by
      apply List.filterMap_congr
      intro r _
      rw [refVersion, split_last_v_eq_afterLast]
    rw [next_version]
    by_cases h : refs.isEmpty
    · rw [if_pos h]
      rw [List.isEmpty_iff] at h
      subst h
      rfl
    · rw [if_neg h, hfm]
  · decide

/-- Claim C1 (counterexample): a ref whose full name contains no `v`
but is all digits is counted by the code (whole-string parse) yet has
no text after a last `v`, so the formula of the claim — which ignores such
refs and would yield 1 — disagrees with the code, which yields 8. -/
theorem version_resolver_cex :
    next_version [⟨"7", "a", "b"⟩] = 8 ∧ resolver_spec [⟨"7", "a", "b"⟩] = 1 := by
  constructor <;> decide

theorem strData_append (a b : String) : (a ++ b).data = a.data ++ b.data := by
  cases a; cases b; rfl

theorem strExt {a b : String} (h : a.data = b.data) : a = b := by
  cases a; cases b; exact congrArg String.mk h

theorem strApp_cancel {P b c : String} : P ++ b = P ++ c ↔ b = c := by
  constructor
  · intro h
    have hd := congrArg String.data h
    rw [strData_append, strData_append] at hd
    exact strExt (List.append_cancel_left hd)
  · intro h
    rw [h]

theorem ne_slashHead_slashV (X : String) : ("/head" : String) ≠ "/v" ++ X := by
  intro h
  have hd := congrArg String.data h
  rw [strData_append] at hd
  simp at hd

theorem ne_slashHeadBase_slashV (X : String) : ("/head-base" : String) ≠ "/v" ++ X := by
  intro h
  have hd := congrArg String.data h
  rw [strData_append] at hd
  simp at hd

theorem ne_dashHead_dashV (X : String) : ("-head" : String) ≠ "-v" ++ X := by
  intro h
  have hd := congrArg String.data h
  rw [strData_append] at hd
  simp at hd

theorem ne_dashHeadBase_dashV (X : String) : ("-head-base" : String) ≠ "-v" ++ X := by
  intro h
  have hd := congrArg String.data h
  rw [strData_append] at hd
  simp at hd

/-- Claim C2: given a successful listing, `synchronize_pr` updates
`{pr}/head` (resp. `{pr}/head-base`) iff some fetched full name ends
with that pointer name and creates it otherwise, and it always creates
the fresh versioned pair `{pr}/v{N}` / `{pr}/v{N}-base` at head and
base via `create_ref`; `update_ref` is never called on any other
name. -/
theorem synchronize_pr_upsert (client : RepositoryController) (pr : Nat) (sha base : String)
    (refs : List Ref)
    (h : client.matching_refs (toString pr ++ "/") = .ok refs) :
    (Op.updateRef (toString pr ++ "/head") sha ∈ (synchronize_pr client pr sha base).1 ↔
      ∃ r ∈ refs, strEndsWith r.full_name (toString pr ++ "/head") = true) ∧
    (Op.createRef (toString pr ++ "/head") sha ∈ (synchronize_pr client pr sha base).1 ↔
      ¬∃ r ∈ refs, strEndsWith r.full_name (toString pr ++ "/head") = true) ∧
    (Op.updateRef (toString pr ++ "/head-base") base ∈ (synchronize_pr client pr sha base).1 ↔
      ∃ r ∈ refs, strEndsWith r.full_name (toString pr ++ "/head-base") = true) ∧
    (Op.createRef (toString pr ++ "/head-base") base ∈ (synchronize_pr client pr sha base).1 ↔
      ¬∃ r ∈ refs, strEndsWith r.full_name (toString pr ++ "/head-base") = true) ∧
    Op.createRef (toString pr ++ "/v" ++ toString (next_version refs)) sha
      ∈ (synchronize_pr client pr sha base).1 ∧
    Op.createRef (toString pr ++ "/v" ++ toString (next_version refs) ++ "-base") base
      ∈ (synchronize_pr client pr sha base).1 ∧
    (∀ n s, Op.updateRef n s ∈ (synchronize_pr client pr sha base).1 →
      n = toString pr ++ "/head" ∨ n = toString pr ++ "/head-base") := by
  have h12 : ¬(toString pr ++ "/head" = toString pr ++ "/head-base") := by
    rw [strApp_cancel]; decide
  have h21 : ¬(toString pr ++ "/head-base" = toString pr ++ "/head") := fun hh => h12 hh.symm
  have e3 : toString pr ++ "/v" ++ toString (next_version refs) =
      toString pr ++ ("/v" ++ toString (next_version refs)) := String.append_assoc _ _ _
  have e4 : toString pr ++ "/v" ++ toString (next_version refs) ++ "-base" =
      toString pr ++ ("/v" ++ (toString (next_version refs) ++ "-base")) := by
    rw [String.append_assoc, String.append_assoc]
  have h13 : ¬(toString pr ++ "/head" = toString pr ++ "/v" ++ toString (next_version refs)) := by
    rw [e3, strApp_cancel]
    exact ne_slashHead_slashV _
  have h14 : ¬(toString pr ++ "/head" =
      toString pr ++ "/v" ++ toString (next_version refs) ++ "-base") := by
    rw [e4, strApp_cancel]
    exact ne_slashHead_slashV _
  have h23 : ¬(toString pr ++ "/head-base" =
      toString pr ++ "/v" ++ toString (next_version refs)) := by
    rw [e3, strApp_cancel]
    exact ne_slashHeadBase_slashV _
  have h24 : ¬(toString pr ++ "/head-base" =
      toString pr ++ "/v" ++ toString (next_version refs) ++ "-base") := by
    rw [e4, strApp_cancel]
    exact ne_slashHeadBase_slashV _
  have hex1 : ((refs.any fun t => strEndsWith t.full_name (toString pr ++ "/head")) = true) ↔
      ∃ r ∈ refs, strEndsWith r.full_name (toString pr ++ "/head") = true := List.any_eq_true
  have hex2 : ((refs.any fun t => strEndsWith t.full_name (toString pr ++ "/head-base")) = true) ↔
      ∃ r ∈ refs, strEndsWith r.full_name (toString pr ++ "/head-base") = true :=
    List.any_eq_true
  rw [← hex1, ← hex2]
  cases hc1 : (refs.any fun t => strEndsWith t.full_name (toString pr ++ "/head")) <;>
    cases hc2 : (refs.any fun t => strEndsWith t.full_name (toString pr ++ "/head-base")) <;>
      simp [synchronize_pr, h, upsertCall, hc1, hc2, h12, h21, h13, h14, h23, h24] <;>
      · intro n s hmem
        rcases hmem with ⟨rfl, rfl⟩ | ⟨rfl, rfl⟩
        · exact Or.inl rfl
        · exact Or.inr rfl

/-- Witness for claim C2 at PR 1234 with an existing `head` ref and a
`v4` snapshot: `head` is updated and `v5` is created. -/
theorem synchronize_pr_upsert_witness :
    Op.updateRef (toString 1234 ++ "/head") "abc" ∈
      (synchronize_pr syncClient 1234 "abc" "def").1 ∧
    Op.createRef (toString 1234 ++ "/v" ++ toString 5) "abc" ∈
      (synchronize_pr syncClient 1234 "abc" "def").1 := by
  obtain ⟨w1, _, _, _, w5, _, _⟩ :=
    synchronize_pr_upsert syncClient 1234 "abc" "def"
      [⟨"1234/head", "s", "n"⟩, ⟨"1234/v4", "s", "n"⟩] rfl
  refine ⟨w1.mpr ⟨⟨"1234/head", "s", "n"⟩, by decide, by decide⟩, ?_⟩
  have hv : next_version [⟨"1234/head", "s", "n"⟩, ⟨"1234/v4", "s", "n"⟩] = 5 := by decide
  rw [hv] at w5
  exact w5

/-- Claim C3 (amended): given a successful listing, `bookmark_pr`
updates `{pr}/{reviewer}-head` (resp. `-head-base`) iff some fetched
full name ends with the BARE suffix `head` (resp. `head-base`) — not
the full pointer name — and creates it otherwise; it always creates the
fresh reviewer-scoped pair `{pr}/{reviewer}-v{N}` / `-v{N}-base`, and
`update_ref` is never called on any other name. -/
theorem bookmark_pr_upsert (client : RepositoryController) (pr : Nat)
    (reviewer sha base : String) (refs : List Ref)
    (h : client.matching_refs (toString pr ++ "/" ++ reviewer) = .ok refs) :
    (Op.updateRef (toString pr ++ "/" ++ reviewer ++ "-head") sha ∈
        (bookmark_pr client pr reviewer sha base).1 ↔
      ∃ r ∈ refs, strEndsWith r.full_name "head" = true) ∧
    (Op.createRef (toString pr ++ "/" ++ reviewer ++ "-head") sha ∈
        (bookmark_pr client pr reviewer sha base).1 ↔
      ¬∃ r ∈ refs, strEndsWith r.full_name "head" = true) ∧
    (Op.updateRef (toString pr ++ "/" ++ reviewer ++ "-head-base") base ∈
        (bookmark_pr client pr reviewer sha base).1 ↔
      ∃ r ∈ refs, strEndsWith r.full_name "head-base" = true) ∧
    (Op.createRef (toString pr ++ "/" ++ reviewer ++ "-head-base") base ∈
        (bookmark_pr client pr reviewer sha base).1 ↔
      ¬∃ r ∈ refs, strEndsWith r.full_name "head-base" = true) ∧
    Op.createRef (toString pr ++ "/" ++ reviewer ++ "-v" ++ toString (next_version refs)) sha
      ∈ (bookmark_pr client pr reviewer sha base).1 ∧
    Op.createRef
        (toString pr ++ "/" ++ reviewer ++ "-v" ++ toString (next_version refs) ++ "-base") base
      ∈ (bookmark_pr client pr reviewer sha base).1 ∧
    (∀ n s, Op.updateRef n s ∈ (bookmark_pr client pr reviewer sha base).1 →
      n = toString pr ++ "/" ++ reviewer ++ "-head" ∨
        n = toString pr ++ "/" ++ reviewer ++ "-head-base") := by
  have h12 : ¬(toString pr ++ "/" ++ reviewer ++ "-head" =
      toString pr ++ "/" ++ reviewer ++ "-head-base") := by
    rw [strApp_cancel]; decide
  have h21 : ¬(toString pr ++ "/" ++ reviewer ++ "-head-base" =
      toString pr ++ "/" ++ reviewer ++ "-head") := fun hh => h12 hh.symm
  have e3 : toString pr ++ "/" ++ reviewer ++ "-v" ++ toString (next_version refs) =
      toString pr ++ "/" ++ reviewer ++ ("-v" ++ toString (next_version refs)) :=
    String.append_assoc _ _ _
  have e4 : toString pr ++ "/" ++ reviewer ++ "-v" ++ toString (next_version refs) ++ "-base" =
      toString pr ++ "/" ++ reviewer ++ ("-v" ++ (toString (next_version refs) ++ "-base")) := by
    rw [String.append_assoc, String.append_assoc]
  have h13 : ¬(toString pr ++ "/" ++ reviewer ++ "-head" =
      toString pr ++ "/" ++ reviewer ++ "-v" ++ toString (next_version refs)) := by
    rw [e3, strApp_cancel]
    exact ne_dashHead_dashV _
  have h14 : ¬(toString pr ++ "/" ++ reviewer ++ "-head" =
      toString pr ++ "/" ++ reviewer ++ "-v" ++ toString (next_version refs) ++ "-base") := by
    rw [e4, strApp_cancel]
    exact ne_dashHead_dashV _
  have h23 : ¬(toString pr ++ "/" ++ reviewer ++ "-head-base" =
      toString pr ++ "/" ++ reviewer ++ "-v" ++ toString (next_version refs)) := by
    rw [e3, strApp_cancel]
    exact ne_dashHeadBase_dashV _
  have h24 : ¬(toString pr ++ "/" ++ reviewer ++ "-head-base" =
      toString pr ++ "/" ++ reviewer ++ "-v" ++ toString (next_version refs) ++ "-base") := by
    rw [e4, strApp_cancel]
    exact ne_dashHeadBase_dashV _
  have hex1 : ((refs.any fun t => strEndsWith t.full_name "head") = true) ↔
      ∃ r ∈ refs, strEndsWith r.full_name "head" = true := List.any_eq_true
  have hex2 : ((refs.any fun t => strEndsWith t.full_name "head-base") = true) ↔
      ∃ r ∈ refs, strEndsWith r.full_name "head-base" = true := List.any_eq_true
  rw [← hex1, ← hex2]
  cases hc1 : (refs.any fun t => strEndsWith t.full_name "head") <;>
    cases hc2 : (refs.any fun t => strEndsWith t.full_name "head-base") <;>
      simp [bookmark_pr, h, upsertCall, hc1, hc2, h12, h21, h13, h14, h23, h24] <;>
      · intro n s hmem
        rcases hmem with ⟨rfl, rfl⟩ | ⟨rfl, rfl⟩
        · exact Or.inl rfl
        · exact Or.inr rfl

/-- Claim C3 (counterexample): with fetched set `[1/me-v9-head]` no ref
matches the current-pointer name `1/me-head` (no full name ends with
it), yet `bookmark_pr` calls `update_ref` — not `create_ref` — on it,
because the source only tests the bare suffix `head`. -/
theorem bookmark_pr_cex :
    Op.updateRef (toString 1 ++ "/" ++ "me" ++ "-head") "s1" ∈
      (bookmark_pr bmClient 1 "me" "s1" "b1").1 ∧
    Op.createRef (toString 1 ++ "/" ++ "me" ++ "-head") "s1" ∉
      (bookmark_pr bmClient 1 "me" "s1" "b1").1 ∧
    ¬∃ r ∈ [Ref.mk "1/me-v9-head" "s" "n"],
      strEndsWith r.full_name (toString 1 ++ "/" ++ "me" ++ "-head") = true := by
  refine ⟨by decide, by decide, by decide⟩

/-- Witness for claim C3 (amended) at PR 1, reviewer `me`, fetched set
`[1/me-v9-head]`: the bare-suffix test holds, so `update_ref` is called
on `1/me-head`, and the reviewer-scoped `v1` pair is created (the
stale `v9-head` suffix does not parse, so the version restarts at 1). -/
theorem bookmark_pr_upsert_witness :
    Op.updateRef (toString 1 ++ "/" ++ "me" ++ "-head") "s1" ∈
      (bookmark_pr bmClient 1 "me" "s1" "b1").1 ∧
    Op.createRef (toString 1 ++ "/" ++ "me" ++ "-v" ++ toString 1) "s1" ∈
      (bookmark_pr bmClient 1 "me" "s1" "b1").1 := by
  obtain ⟨w1, _, _, _, w5, _, _⟩ :=
    bookmark_pr_upsert bmClient 1 "me" "s1" "b1" [⟨"1/me-v9-head", "s", "n"⟩] rfl
  refine ⟨w1.mpr ⟨⟨"1/me-v9-head", "s", "n"⟩, by decide, by decide⟩, ?_⟩
  have hv : next_version [(⟨"1/me-v9-head", "s", "n"⟩ : Ref)] = 1 := by decide
  rw [hv] at w5
  exact w5

/-- Claim C4: `open_pr` issues exactly the four `create_ref` calls
`{pr}/head` and `{pr}/v1` at the head sha and `{pr}/head-base` and
`{pr}/v1-base` at the base sha, attempts all four even if earlier ones
fail, and succeeds iff all four backend calls succeeded. -/
theorem open_pr_four_creates (client : RepositoryController) (pr : Nat) (sha base : String) :
    (open_pr client pr sha base).1 =
      [Op.createRef (toString pr ++ "/head") sha,
       Op.createRef (toString pr ++ "/head-base") base,
       Op.createRef (toString pr ++ "/v1") sha,
       Op.createRef (toString pr ++ "/v1-base") base] ∧
    ((open_pr client pr sha base).2 = .ok () ↔
      (client.create_ref (toString pr ++ "/head") sha = .ok () ∧
       client.create_ref (toString pr ++ "/head-base") base = .ok () ∧
       client.create_ref (toString pr ++ "/v1") sha = .ok () ∧
       client.create_ref (toString pr ++ "/v1-base") base = .ok ())) := by
  refine ⟨rfl, ?_⟩
  simp only [open_pr, popResult]
  cases h1 : client.create_ref (toString pr ++ "/head") sha <;>
    cases h2 : client.create_ref (toString pr ++ "/head-base") base <;>
      cases h3 : client.create_ref (toString pr ++ "/v1") sha <;>
        cases h4 : client.create_ref (toString pr ++ "/v1-base") base <;>
          simp [errsOf]

theorem errsOf_eq_nil (r : Except ChetterError Unit) : errsOf r = [] ↔ r = .ok () := by
  cases r with
  | ok u => cases u; simp [errsOf]
  | error e => simp [errsOf]

theorem popResult_eq_ok (l : List ChetterError) : popResult l = .ok () ↔ l = [] := by
  cases h : l.getLast? with
  | none =>
    simp only [popResult, h]
    simpa using (List.getLast?_eq_none_iff).mp h
  | some e =>
    simp only [popResult, h]
    constructor
    · intro hc
      exact absurd hc (by simp)
    · intro hl
      subst hl
      simp at h

theorem chunks100_flatten (l : List Ref) : (chunks100 l).flatten = l := by
  induction l using chunks100.induct with
  | case1 l hl =>
    rw [List.isEmpty_iff] at hl
    subst hl
    simp [chunks100]
  | case2 l hl ih =>
    rw [chunks100, if_neg hl]
    simp [ih]

theorem chunks100_mem (l : List Ref) : ∀ c ∈ chunks100 l, c ≠ [] ∧ c.length ≤ 100 := by
  induction l using chunks100.induct with
  | case1 l hl =>
    rw [List.isEmpty_iff] at hl
    subst hl
    intro c hc
    simp [chunks100] at hc
  | case2 l hl ih =>
    rw [chunks100, if_neg hl]
    intro c hc
    rcases List.mem_cons.mp hc with rfl | hc2
    · refine ⟨?_, by simp⟩
      have hne : l ≠ [] := by simpa [List.isEmpty_iff] using hl
      simp [List.take_eq_nil_iff, hne]
    · exact ih c hc2

theorem delete_refs_foldl (respond : List Ref → Except ChetterError Unit)
    (cs : List (List Ref)) (acc : List (List Ref) × List ChetterError) :
    (cs.foldl (fun acc chunk => (acc.1 ++ [chunk], acc.2 ++ errsOf (respond chunk))) acc) =
      (acc.1 ++ cs, acc.2 ++ (cs.map (fun c => errsOf (respond c))).flatten) := by
  induction cs generalizing acc with
  | nil => simp
  | cons c cs ih => simp [ih]

/-- Claim C5: `delete_refs` issues exactly one bulk request per
consecutive chunk of at most 100 refs, the chunks concatenate back to
the input (every ref gets exactly one delete attempt), every chunk is
requested regardless of failures of other chunks, and the operation
succeeds iff every chunk request succeeded. -/
theorem delete_refs_chunked (respond : List Ref → Except ChetterError Unit) (refs : List Ref) :
    (RepositoryClient.delete_refs respond refs).1 = chunks100 refs ∧
    (chunks100 refs).flatten = refs ∧
    (∀ c ∈ chunks100 refs, c ≠ [] ∧ c.length ≤ 100) ∧
    ((RepositoryClient.delete_refs respond refs).2 = .ok () ↔
      ∀ c ∈ chunks100 refs, respond c = .ok ()) := by
  refine ⟨?_, chunks100_flatten refs, chunks100_mem refs, ?_⟩
  · simp [RepositoryClient.delete_refs, delete_refs_foldl]
  · simp only [RepositoryClient.delete_refs, delete_refs_foldl, List.nil_append]
    rw [popResult_eq_ok, List.flatten_eq_nil_iff]
    constructor
    · intro hall c hc
      exact (errsOf_eq_nil _).mp (hall _ (List.mem_map_of_mem _ hc))
    · intro hall x hx
      obtain ⟨c, hc, rfl⟩ := List.mem_map.mp hx
      exact (errsOf_eq_nil _).mpr (hall c hc)

/-- Witness for claim C5 on a two-ref input with an all-ok remote: one
chunk is requested and the operation succeeds. -/
theorem delete_refs_chunked_witness :
    (RepositoryClient.delete_refs (fun _ => .ok ())
      [⟨"1/head", "s", "n1"⟩, ⟨"1/v1", "s", "n2"⟩]).1 =
      chunks100 [⟨"1/head", "s", "n1"⟩, ⟨"1/v1", "s", "n2"⟩] ∧
    (RepositoryClient.delete_refs (fun _ => .ok ())
      [⟨"1/head", "s", "n1"⟩, ⟨"1/v1", "s", "n2"⟩]).2 = .ok () := by
  have h := delete_refs_chunked (fun _ => .ok ())
    [⟨"1/head", "s", "n1"⟩, ⟨"1/v1", "s", "n2"⟩]
  exact ⟨h.1, h.2.2.2.mpr (fun c _ => rfl)⟩

/-- Claim C6 (counterexample): a review whose state is Commented —
neither Approved nor ChangesRequested — but whose payload lacks
`.review.commit_id` makes the handler return a parse error, not the
no-op success the claim asserts for every such event. -/
theorem review_filter_cex :
    on_pull_request_review nullClient "me" ⟨none, some .commented, 1, "b"⟩ =
      ([], .error (.githubParseError "missing .review.commit_id")) ∧
    triggersBookmark (some .commented) = false := ⟨rfl, rfl⟩

/-- Claim C6 (amended): for every review event that carries a review
commit id and whose state is neither Approved nor ChangesRequested, the
handler performs no ref operations and returns no-op success; when the
commit id is missing the handler instead returns a parse error
regardless of state. -/
theorem review_filter_amended (client : RepositoryController) (reviewer sha : String)
    (payload : PullRequestReviewPayload)
    (h1 : payload.review_commit_id = some sha)
    (h2 : triggersBookmark payload.review_state = false) :
    on_pull_request_review client reviewer payload = ([], .ok ()) := by
  obtain ⟨cid, st, n, b⟩ := payload
  simp only at h1 h2
  subst h1
  cases st with
  | none => rfl
  | some s =>
    cases s
    · exact absurd h2 (by decide)
    · exact absurd h2 (by decide)
    · rfl
    · rfl
    · rfl

/-- Witness for claim C6 (amended): a Commented review with a commit id
is a no-op success. -/
theorem review_filter_amended_witness :
    on_pull_request_review nullClient "me" ⟨some "c0ffee", some .commented, 1, "b"⟩ =
      ([], .ok ()) :=
  review_filter_amended nullClient "me" "c0ffee" ⟨some "c0ffee", some .commented, 1, "b"⟩ rfl rfl

/-- Claim C8: for a Closed pull-request event the dispatcher schedules
`close_pr` onto the background task tracker and returns `Ok` at once;
`client` is arbitrary, so the result is `Ok` regardless of whether the
scheduled close later succeeds or fails — as the second and third
conjuncts demonstrate on a client whose close fails. -/
theorem close_dispatch_async (client : RepositoryController) (pr : Nat) (sha base : String) :
    on_pull_request client ⟨PullRequestAction.closed, pr, sha, base⟩ =
      (([], .ok ()), [close_pr client pr]) ∧
    (close_pr failClient pr).2 = .error (.octocrab 0) ∧
    (on_pull_request failClient ⟨PullRequestAction.closed, pr, sha, base⟩).1.2 = .ok () := by
  refine ⟨rfl, ?_, rfl⟩
  simp [close_pr, failClient]

/-- Claim C9: when the initial `matching_refs` listing fails, each of
`synchronize_pr`, `close_pr` and `bookmark_pr` returns that error at
once and issues no `create_ref`, `update_ref` or `delete_refs` call:
the whole trace is the single failed listing call. -/
theorem listing_failure_atomic (client : RepositoryController) (pr : Nat)
    (reviewer sha base : String) (e e2 : ChetterError)
    (h1 : client.matching_refs (toString pr ++ "/") = .error e)
    (h2 : client.matching_refs (toString pr ++ "/" ++ reviewer) = .error e2) :
    synchronize_pr client pr sha base =
      ([Op.matchingRefs (toString pr ++ "/")], .error e) ∧
    close_pr client pr = ([Op.matchingRefs (toString pr ++ "/")], .error e) ∧
    bookmark_pr client pr reviewer sha base =
      ([Op.matchingRefs (toString pr ++ "/" ++ reviewer)], .error e2) := by
  refine ⟨?_, ?_, ?_⟩
  · simp [synchronize_pr, h1]
  · simp [close_pr, h1]
  · simp [bookmark_pr, h2]

/-- Witness for claim C9 on a client whose listing always fails. -/
theorem listing_failure_atomic_witness :
    synchronize_pr failClient 2 "s" "b" =
      ([Op.matchingRefs (toString 2 ++ "/")], .error (.octocrab 0)) ∧
    close_pr failClient 2 = ([Op.matchingRefs (toString 2 ++ "/")], .error (.octocrab 0)) ∧
    bookmark_pr failClient 2 "me" "s" "b" =
      ([Op.matchingRefs (toString 2 ++ "/" ++ "me")], .error (.octocrab 0)) :=
  listing_failure_atomic failClient 2 "me" "s" "b" (.octocrab 0) (.octocrab 0) rfl rfl

theorem refNS_path (search : String) :
    "refs/" ++ short_ns ++ "/" ++ search = REF_NS ++ "/" ++ search := by
  have h : ("refs/" ++ short_ns ++ "/" : String) = REF_NS ++ "/" := by decide
  exact congrArg (fun x => x ++ search) h

/-- Claim C7 (amended): every Ref returned by `matching_refs` arises
from a remote reference that lies under the fixed namespace `REF_NS`
and whose fully qualified name extends `REF_NS/<search>` as a PREFIX
(prefix matching, not suffix matching); the reported name is the remote
name with `REF_NS/` stripped.  In particular searching `abc/d` matches
`.../abc/def`, `.../abc/d/ef` and `.../abc/d`, but not
`.../other/abc/d` or `.../ab`. -/
theorem matching_refs_under_ns :
    (∀ (univ : List RemoteRef) (search : String) (r : Ref),
        r ∈ RepositoryClient.matching_refs univ search →
        ∃ rr ∈ univ,
          strStartsWith rr.ref_field (REF_NS ++ "/" ++ search) = true ∧
          strStartsWith rr.ref_field (REF_NS ++ "/") = true ∧
          r.full_name = ⟨removeAll (REF_NS ++ "/").data rr.ref_field.data⟩ ∧
          r.node_id = rr.node_id) ∧
    RepositoryClient.matching_refs
        [⟨"refs/heads/pr/abc/def", .commit "s1", "n1"⟩,
         ⟨"refs/heads/pr/abc/d/ef", .commit "s2", "n2"⟩,
         ⟨"refs/heads/pr/abc/d", .commit "s3", "n3"⟩,
         ⟨"refs/heads/pr/other/abc/d", .commit "s4", "n4"⟩,
         ⟨"refs/heads/pr/ab", .commit "s5", "n5"⟩] "abc/d" =
      [⟨"abc/def", "s1", "n1"⟩, ⟨"abc/d/ef", "s2", "n2"⟩, ⟨"abc/d", "s3", "n3"⟩] := by
  constructor
  · intro univ search r hr
    simp only [RepositoryClient.matching_refs] at hr
    obtain ⟨rr, hmem, hsome⟩ := List.mem_filterMap.mp hr
    obtain ⟨hu, hcond⟩ := List.mem_filter.mp hmem
    rw [refNS_path] at hcond
    have hns : strStartsWith rr.ref_field (REF_NS ++ "/") = true := by
      rw [strStartsWith, List.isPrefixOf_iff_prefix] at hcond ⊢
      refine List.IsPrefix.trans ?_ hcond
      rw [strData_append]
      exact List.prefix_append _ _
    cases ho : rr.object with
    | commit sha =>
      rw [ho] at hsome
      have hr2 := Option.some.inj hsome
      exact ⟨rr, hu, hcond, hns, by rw [← hr2], by rw [← hr2]⟩
    | tag sha =>
      rw [ho] at hsome
      have hr2 := Option.some.inj hsome
      exact ⟨rr, hu, hcond, hns, by rw [← hr2], by rw [← hr2]⟩
    | other =>
      rw [ho] at hsome
      exact absurd hsome (by simp)
  · decide

/-- Witness for claim C7 (amended) at the remote ref
`refs/heads/pr/abc/def` and search `abc/d`. -/
theorem matching_refs_under_ns_witness :
    ∃ rr ∈ [RemoteRef.mk "refs/heads/pr/abc/def" (.commit "s1") "n1"],
      strStartsWith rr.ref_field (REF_NS ++ "/" ++ "abc/d") = true ∧
      strStartsWith rr.ref_field (REF_NS ++ "/") = true ∧
      (Ref.mk "abc/def" "s1" "n1").full_name =
        ⟨removeAll (REF_NS ++ "/").data rr.ref_field.data⟩ ∧
      (Ref.mk "abc/def" "s1" "n1").node_id = rr.node_id :=
  matching_refs_under_ns.1 [⟨"refs/heads/pr/abc/def", .commit "s1", "n1"⟩] "abc/d"
    ⟨"abc/def", "s1", "n1"⟩ (by decide)

/-- Claim C7 (counterexample): searching `abc/d` returns the ref whose
stripped name is `abc/def` (remote `refs/heads/pr/abc/def`), and that
name — stripped or fully qualified — does not end with the search
string, refuting the suffix-matching reading of the claim (which the
own examples of the claim already contradict). -/
theorem matching_refs_cex :
    RepositoryClient.matching_refs
        [⟨"refs/heads/pr/abc/def", .commit "s1", "n1"⟩] "abc/d" =
      [⟨"abc/def", "s1", "n1"⟩] ∧
    strEndsWith "abc/def" "abc/d" = false ∧
    strEndsWith "refs/heads/pr/abc/def" "abc/d" = false := by
  refine ⟨by decide, by decide, by decide⟩

theorem utf8Len_nil : utf8Len [] = 0 := rfl

theorem utf8Len_cons (c : Char) (l : List Char) :
    utf8Len (c :: l) = c.utf8Size + utf8Len l := by
  simp [utf8Len]

theorem utf8Len_append (a b : List Char) :
    utf8Len (a ++ b) = utf8Len a + utf8Len b := by
  simp [utf8Len]

theorem sliceTo_isSome_iff (cs : List Char) (n : Nat) :
    (sliceTo cs n).isSome = true ↔ ∃ l1 l2, cs = l1 ++ l2 ∧ utf8Len l1 = n := by
  induction cs generalizing n with
  | nil =>
    cases n with
    | zero =>
      simp only [sliceTo, Option.isSome_some, true_iff]
      exact ⟨[], [], rfl, rfl⟩
    | succ m =>
      refine iff_of_false (by simp [sliceTo]) ?_
      rintro ⟨l1, l2, heq, hlen⟩
      have h1 : l1 = [] := by
        cases l1 with
        | nil => rfl
        | cons a t => simp at heq
      subst h1
      simp [utf8Len] at hlen
  | cons c rest ih =>
    cases n with
    | zero =>
      simp only [sliceTo, Option.isSome_some, true_iff]
      exact ⟨[], c :: rest, rfl, rfl⟩
    | succ m =>
      by_cases hsz : c.utf8Size ≤ m + 1
      · rw [sliceTo, if_pos hsz]
        have hmap : (Option.map (fun x => c :: x) (sliceTo rest (m + 1 - c.utf8Size))).isSome
            = (sliceTo rest (m + 1 - c.utf8Size)).isSome := by
          cases sliceTo rest (m + 1 - c.utf8Size) <;> rfl
        rw [hmap, ih]
        constructor
        · rintro ⟨l1, l2, heq, hlen⟩
          refine ⟨c :: l1, l2, by rw [heq, List.cons_append], ?_⟩
          rw [utf8Len_cons, hlen]
          omega
        · rintro ⟨l1, l2, heq, hlen⟩
          cases l1 with
          | nil => simp [utf8Len] at hlen
          | cons a l1 =>
            rw [List.cons_append] at heq
            have hc := (List.cons.injEq _ _ _ _).mp heq
            rcases hc with ⟨rfl, hrest⟩
            rw [utf8Len_cons] at hlen
            exact ⟨l1, l2, hrest, by omega⟩
      · rw [sliceTo, if_neg hsz]
        refine iff_of_false (by simp) ?_
        rintro ⟨l1, l2, heq, hlen⟩
        cases l1 with
        | nil => simp [utf8Len] at hlen
        | cons a l1 =>
          rw [List.cons_append] at heq
          have hc := (List.cons.injEq _ _ _ _).mp heq
          rcases hc with ⟨rfl, -⟩
          rw [utf8Len_cons] at hlen
          exact hsz (by omega)

/-- Claim C10: `RepositoryClient::create_ref` and `update_ref` evaluate
the byte slice `&sha[0..8]` on both the success and the failure logging
path, so either call is panic-free iff the UTF-8 encoding of the sha splits
after exactly 8 bytes at a character boundary (hence is at least 8
bytes long); every sha shorter than 8 bytes makes both calls panic
instead of returning a typed error. -/
theorem sha_slice_panic (post : Except ChetterError Unit) (name sha : String) :
    (RepositoryClient.create_ref post name sha ≠ none ↔
      ∃ l1 l2, sha.data = l1 ++ l2 ∧ utf8Len l1 = 8) ∧
    (RepositoryClient.update_ref post name sha ≠ none ↔
      ∃ l1 l2, sha.data = l1 ++ l2 ∧ utf8Len l1 = 8) ∧
    (utf8Len sha.data < 8 →
      RepositoryClient.create_ref post name sha = none ∧
      RepositoryClient.update_ref post name sha = none) := by
  have hc : RepositoryClient.create_ref post name sha = none ↔ sliceTo sha.data 8 = none := by
    cases post <;> cases hslice : sliceTo sha.data 8 <;>
      simp [RepositoryClient.create_ref, hslice]
  have hu : RepositoryClient.update_ref post name sha = none ↔ sliceTo sha.data 8 = none := by
    cases post <;> cases hslice : sliceTo sha.data 8 <;>
      simp [RepositoryClient.update_ref, hslice]
  have hsome : sliceTo sha.data 8 ≠ none ↔ ∃ l1 l2, sha.data = l1 ++ l2 ∧ utf8Len l1 = 8 := by
    rw [Option.ne_none_iff_isSome, sliceTo_isSome_iff]
  have hshort : utf8Len sha.data < 8 → sliceTo sha.data 8 = none := by
    intro hlt
    by_contra hne
    obtain ⟨l1, l2, heq, hlen⟩ := hsome.mp hne
    rw [heq, utf8Len_append, hlen] at hlt
    omega
  refine ⟨?_, ?_, fun hlt => ⟨hc.mpr (hshort hlt), hu.mpr (hshort hlt)⟩⟩
  · show ¬(RepositoryClient.create_ref post name sha = none) ↔ _
    rw [hc]
    exact hsome
  · show ¬(RepositoryClient.update_ref post name sha = none) ↔ _
    rw [hu]
    exact hsome

/-- Witness for claim C10: the 3-byte sha `abc` makes both calls panic
on either HTTP outcome. -/
theorem sha_slice_panic_witness :
    RepositoryClient.create_ref (.ok ()) "1/head" "abc" = none ∧
    RepositoryClient.update_ref (.error (.octocrab 0)) "1/head" "abc" = none :=
  ⟨((sha_slice_panic (.ok ()) "1/head" "abc").2.2 (by decide)).1,
   ((sha_slice_panic (.error (.octocrab 0)) "1/head" "abc").2.2 (by decide)).2⟩
